import Mathlib

/-!
Verification development for the pybel-tools caching and query layer.

This file shallowly embeds the two source modules
`src/pybel_tools/selection/induce_subgraph.py` (the subgraph seeding /
expand / remove pipeline) and `src/pybel_tools/api.py` (the
`DatabaseService` graph cache, identifier indexes, degree index and
similarity cache), and proves the specified properties about them.

Graphs are directed multigraphs (networkx `MultiDiGraph` via pybel's
`BELGraph`): nodes are BEL terms with structural identity, edges carry a
key and an annotation data dictionary.  Python dictionaries are embedded
as association lists, Python `None` results as `Option`, raised
exceptions as `Except`. Helper functions of the repository that are not
part of the two source files are modelled from the specification and
marked as such in their doc comments.
-/

deriving instance DecidableEq for Except

namespace PyBel

/-- A BEL node: structural identity given by its typed attributes
(function type such as `"Protein"` or `"Pathology"`, and a name). -/
structure Node where
  func : String
  name : String
deriving DecidableEq, Repr

/-- Whether a node is pathology-typed (a disease/phenotype entity,
excludable during certain expansions). -/
def Node.isPathology (n : Node) : Bool :=
  n.func = "Pathology"

/-- The annotation data dictionary of an edge: relation-type tag,
optional citation reference, author list and context annotation
key → value-set pairs. -/
structure EdgeData where
  relation : String
  citation : Option String
  authors : List String
  annotations : List (String × List String)
deriving DecidableEq, Repr

/-- A keyed edge of a directed multigraph: source, target,
disambiguating key and the data dictionary. -/
structure Edge where
  u : Node
  v : Node
  key : Nat
  data : EdgeData
deriving DecidableEq, Repr

/-- The causal relation tags (pybel's `CAUSAL_RELATIONS`); the
relation-type tag distinguishes causal from non-causal edges. -/
def causalRelations : List String :=
  ["increases", "directlyIncreases", "decreases", "directlyDecreases"]

/-- pybel's `is_causal_relation` edge predicate. -/
def Edge.isCausal (e : Edge) : Bool :=
  decide (e.data.relation ∈ causalRelations)

/-- A BEL graph: a directed multigraph with a node list and a keyed
edge list (`BELGraph`, a networkx `MultiDiGraph`). -/
structure Graph where
  nodes : List Node
  edges : List Edge
deriving DecidableEq, Repr

/-- `BELGraph()`: the empty graph. -/
def Graph.empty : Graph :=
  ⟨[], []⟩

/-- networkx `graph.copy()`: in the functional embedding a copy is the
graph itself. -/
def Graph.copy (g : Graph) : Graph :=
  g

/-- networkx node membership `node in graph`. -/
def Graph.hasNode (g : Graph) (n : Node) : Bool :=
  decide (n ∈ g.nodes)

/-- networkx `graph.subgraph(nodes)`: the subgraph induced over the
given node set — the nodes of the graph belonging to the set, plus the
edges with both endpoints in the set. -/
def Graph.subgraph (g : Graph) (ns : List Node) : Graph where
  nodes := g.nodes.filter fun n => decide (n ∈ ns)
  edges := g.edges.filter fun e => decide (e.u ∈ ns) && decide (e.v ∈ ns)

/-- Add a node if not already present (networkx `add_node` on a node
set). -/
def Graph.addNode (g : Graph) (n : Node) : Graph :=
  if n ∈ g.nodes then g else { g with nodes := g.nodes ++ [n] }

/-- Add a keyed edge together with its endpoint nodes; adding an
already-present `(u, v, key)` triple leaves the graph unchanged (all
edge data in this development comes from a single source graph, so
networkx's overwrite of the data dictionary writes back the same
value). -/
def Graph.addEdge (g : Graph) (e : Edge) : Graph :=
  let g := (g.addNode e.u).addNode e.v
  if g.edges.any fun e' => decide (e'.u = e.u) && decide (e'.v = e.v) && decide (e'.key = e.key) then
    g
  else
    { g with edges := g.edges ++ [e] }

/-- pybel_tools' `safe_add_edges` (from `pybel_tools.utils`, not under
`src/`). Modelled from the spec: adds the given keyed edges and their
endpoint nodes into the result graph. -/
def safeAddEdges (g : Graph) (es : List Edge) : Graph :=
  es.foldl Graph.addEdge g

/-- networkx `remove_node`: deletes the node and every edge incident to
it. -/
def Graph.removeNode (g : Graph) (n : Node) : Graph where
  nodes := g.nodes.filter fun m => decide (m ≠ n)
  edges := g.edges.filter fun e => decide (e.u ≠ n) && decide (e.v ≠ n)

namespace Seed

/-- `get_subgraph_by_induction(graph, nodes)`: induces a graph over the
given nodes; returns `none` if none of the nodes are in the given
graph. -/
def subgraphByInduction (g : Graph) (ns : List Node) : Option Graph :=
  if ns.all fun n => !g.hasNode n then
    none
  else
    some (g.subgraph ns)

/-- The edges of `g` incident to the node set `ns` — the union of
`in_edges_iter(ns)` and `out_edges_iter(ns)`. -/
def incidentEdges (g : Graph) (ns : List Node) : List Edge :=
  g.edges.filter fun e => decide (e.u ∈ ns) || decide (e.v ∈ ns)

/-- `get_subgraph_by_neighborhood(graph, nodes)`: the graph around the
neighborhoods of the given nodes (their in-edges and out-edges with
endpoint nodes added by `safe_add_edges`); `none` if no given node is
in the graph.  (`update_node_helper` only copies node data
dictionaries, a no-op here.) -/
def subgraphByNeighborhood (g : Graph) (ns : List Node) : Option Graph :=
  if ns.all fun n => !g.hasNode n then
    none
  else
    some (safeAddEdges Graph.empty (incidentEdges g ns))

/-- `expand_all_node_neighborhoods` (from `pybel_tools.mutation.expansion`,
not under `src/`). Modelled from the spec: one more
neighborhood-expansion pass over the result's current node set,
optionally excluding pathology-typed endpoints from the expansion. -/
def expandAllNodeNeighborhoods (g result : Graph) (filterPathologies : Bool) : Graph :=
  let es := incidentEdges g result.nodes
  let es := if filterPathologies then es.filter fun e => !e.u.isPathology && !e.v.isPathology else es
  safeAddEdges result es

/-- `get_subgraph_by_second_neighbors(graph, nodes, filter_pathologies=False)`:
the neighborhood seed, expanded once more around all of its nodes. -/
def subgraphBySecondNeighbors (g : Graph) (ns : List Node)
    (filterPathologies : Bool := false) : Option Graph :=
  match subgraphByNeighborhood g ns with
  | none => none
  | some result => some (expandAllNodeNeighborhoods g result filterPathologies)

/-- Successors of a node along directed edges. -/
def Graph.succs (g : Graph) (n : Node) : List Node :=
  (g.edges.filter fun e => decide (e.u = n)).map Edge.v

/-- One BFS step: distances for the next layer. -/
def bfsAux (g : Graph) : Nat → List Node → List (Node × Nat) → Nat → List (Node × Nat)
  | 0, _, dist, _ => dist
  | _ + 1, [], dist, _ => dist
  | fuel + 1, frontier, dist, d =>
    let next := (frontier.flatMap (Graph.succs g)).filter fun m =>
      (dist.find? fun p => decide (p.1 = m)).isNone
    let next := next.dedup
    bfsAux g fuel next (dist ++ next.map fun m => (m, d + 1)) (d + 1)

/-- Unweighted shortest-path distance from `s` (networkx BFS shortest
paths on the directed graph); `none` when unreachable. -/
def bfsDist (g : Graph) (s t : Node) : Option Nat :=
  ((bfsAux g (g.nodes.length + 1) [s] [(s, 0)] 0).find? fun p => decide (p.1 = t)).map Prod.snd

/-- `get_nodes_in_all_shortest_paths` (from
`pybel_tools.selection.paths`, not under `src/`). Modelled from the
spec: optionally strip pathology-typed nodes from a working copy, then
collect the union of the nodes appearing on any shortest path between a
pair of the query nodes (a node `w` lies on a shortest path from `s` to
`t` exactly when `dist s w + dist w t = dist s t`). -/
def nodesInAllShortestPaths (g : Graph) (query : List Node)
    (removePathologies : Bool := true) : List Node :=
  let h := if removePathologies then
    g.subgraph (g.nodes.filter fun n => !n.isPathology)
  else g
  h.nodes.filter fun w => query.any fun s => query.any fun t =>
    match bfsDist h s t, bfsDist h s w, bfsDist h w t with
    | some dst, some dsw, some dwt => decide (dsw + dwt = dst)
    | _, _, _ => false

/-- `get_subgraph_by_all_shortest_paths(graph, nodes)` (defaults
`weight=None`, `remove_pathologies=True`): keep the query nodes present
in the graph (`none` if there are none), collect the nodes on all
pairwise shortest paths (`none` if there are none), and induce over
them. -/
def subgraphByAllShortestPaths (g : Graph) (ns : List Node) : Option Graph :=
  let queryNodes := ns.filter g.hasNode
  if queryNodes.isEmpty then
    none
  else
    let induced := nodesInAllShortestPaths g queryNodes
    if induced.isEmpty then
      none
    else
      subgraphByInduction g induced

/-- `get_upstream_causal_subgraph` (from
`pybel_tools.mutation.expansion`, not under `src/`). Modelled from the
spec: the 1-hop causal-only predecessor closure of the seed nodes,
keeping only causal edges; no-result when the seed nodes are absent. -/
def upstreamCausalSubgraph (g : Graph) (ns : List Node) : Option Graph :=
  if ns.all fun n => !g.hasNode n then
    none
  else
    some (safeAddEdges Graph.empty
      (g.edges.filter fun e => e.isCausal && decide (e.v ∈ ns)))

/-- `expand_upstream_causal_subgraph` (not under `src/`). Modelled from
the spec: expand one further causal hop upstream of the result's
current nodes. -/
def expandUpstreamCausal (g result : Graph) : Graph :=
  safeAddEdges result (g.edges.filter fun e => e.isCausal && decide (e.v ∈ result.nodes))

/-- `get_downstream_causal_subgraph` (not under `src/`). Modelled from
the spec: the 1-hop causal-only successor closure of the seed nodes. -/
def downstreamCausalSubgraph (g : Graph) (ns : List Node) : Option Graph :=
  if ns.all fun n => !g.hasNode n then
    none
  else
    some (safeAddEdges Graph.empty
      (g.edges.filter fun e => e.isCausal && decide (e.u ∈ ns)))

/-- `expand_downstream_causal_subgraph` (not under `src/`). Modelled
from the spec: expand one further causal hop downstream. -/
def expandDownstreamCausal (g result : Graph) : Graph :=
  safeAddEdges result (g.edges.filter fun e => e.isCausal && decide (e.u ∈ result.nodes))

/-- `get_multi_causal_upstream(graph, nbunch)`: the 2-level deep causal
upstream subgraph of the seed nodes. -/
def multiCausalUpstream (g : Graph) (ns : List Node) : Option Graph :=
  match upstreamCausalSubgraph g ns with
  | none => none
  | some result => some (expandUpstreamCausal g result)

/-- `get_multi_causal_downstream(graph, nbunch)`: the 2-level deep
causal downstream subgraph of the seed nodes. -/
def multiCausalDownstream (g : Graph) (ns : List Node) : Option Graph :=
  match downstreamCausalSubgraph g ns with
  | none => none
  | some result => some (expandDownstreamCausal g result)

/-- `get_subgraph_by_edge_filter(graph, edge_filters)`: the subgraph
built from all edges passing the filter, with their endpoint nodes
(`safe_add_edges` into a fresh `BELGraph`); always a graph, never
`none`. -/
def subgraphByEdgeFilter (g : Graph) (pred : Edge → Bool) : Graph :=
  safeAddEdges Graph.empty (g.edges.filter pred)

/-- `build_pmid_inclusion_filter` (from
`pybel_tools.filters.edge_filters`, not under `src/`). Modelled from
the spec: edges whose citation reference matches any given
identifier. -/
def pmidFilter (pmids : List String) (e : Edge) : Bool :=
  match e.data.citation with
  | some pmid => decide (pmid ∈ pmids)
  | none => false

/-- `get_subgraph_by_pubmed(graph, pubmed_identifiers)`. -/
def subgraphByPubmed (g : Graph) (pmids : List String) : Graph :=
  subgraphByEdgeFilter g (pmidFilter pmids)

/-- `build_author_inclusion_filter` (not under `src/`). Modelled from
the spec: edges whose citation author list intersects the given
names. -/
def authorFilter (authors : List String) (e : Edge) : Bool :=
  e.data.authors.any fun a => decide (a ∈ authors)

/-- `get_subgraph_by_authors(graph, authors)`. -/
def subgraphByAuthors (g : Graph) (authors : List String) : Graph :=
  subgraphByEdgeFilter g (authorFilter authors)

/-- pybel's `build_annotation_dict_any_filter` (external). Modelled
from the spec: at least one key/value pair of the filter dictionary
matches; values are sets matched by intersection. -/
def annotationAnyFilter (filt : List (String × List String)) (e : Edge) : Bool :=
  filt.any fun kv =>
    match e.data.annotations.find? fun kv' => decide (kv'.1 = kv.1) with
    | some kv' => kv.2.any fun v => decide (v ∈ kv'.2)
    | none => false

/-- pybel's `build_annotation_dict_all_filter` (external). Modelled
from the spec: every specified key must be present and match. -/
def annotationAllFilter (filt : List (String × List String)) (e : Edge) : Bool :=
  filt.all fun kv =>
    match e.data.annotations.find? fun kv' => decide (kv'.1 = kv.1) with
    | some kv' => kv.2.any fun v => decide (v ∈ kv'.2)
    | none => false

/-- `get_subgraph_by_annotations(graph, annotations, or_)`: dispatches
to the "any" filter when `or_` is unset or true, else the "all"
filter. -/
def subgraphByAnnotations (g : Graph) (filt : List (String × List String))
    (orMode : Option Bool) : Graph :=
  let pred := match orMode with
    | none => annotationAnyFilter filt
    | some true => annotationAnyFilter filt
    | some false => annotationAllFilter filt
  subgraphByEdgeFilter g pred

/-- `get_random_subgraph` (from
`pybel_tools.selection.random_subgraph`, not under `src/`). Modelled
from the spec: a random subsample of a requested edge count using a
supplied seed for reproducibility (modelled as a seeded rotation of the
edge list); the count is clamped to the available edges and
connectivity of the result is not guaranteed. -/
def randomSubgraph (g : Graph) (numberEdges : Option Nat) (seed : Option Nat) : Graph :=
  let n := numberEdges.getD 250
  let s := seed.getD 0
  let rotated := g.edges.rotate s
  safeAddEdges Graph.empty (rotated.take n)

end Seed

/-- The allowed seed type strings (`SEED_TYPES`), as a closed
enumeration. -/
inductive SeedMethod where
  | induction
  | neighbors
  | dneighbors
  | shortestPaths
  | authors
  | pubmed
  | upstream
  | downstream
  | annotations
  | sample
deriving DecidableEq, Repr

/-- The dynamically-typed `seed_data` argument: a node list for the
node-based seeds, a string list for pubmed/authors, an annotation
filter dictionary with an optional `'or'` flag, or the sample
parameters `'number_edges'` and `'seed'`. -/
inductive SeedData where
  | nodes (ns : List Node)
  | strings (ss : List String)
  | annotations (filt : List (String × List String)) (orMode : Option Bool)
  | sample (numberEdges : Option Nat) (seed : Option Nat)
deriving DecidableEq, Repr

/-- The seed dispatch of `get_subgraph` (the `if seed_method ==` chain):
each recognized method is dispatched to its seeding function with
`seed_data`; passing a wrongly-typed `seed_data` raises in Python and
is a `.error` here.  (The terminal `raise ValueError` branch for an
unrecognized non-empty seed method has no inhabitant in the closed
enumeration.) -/
def seedDispatch (g : Graph) (m : SeedMethod) (d : SeedData) :
    Except String (Option Graph) :=
  match m, d with
  | .induction, .nodes ns => .ok (Seed.subgraphByInduction g ns)
  | .shortestPaths, .nodes ns => .ok (Seed.subgraphByAllShortestPaths g ns)
  | .neighbors, .nodes ns => .ok (Seed.subgraphByNeighborhood g ns)
  | .dneighbors, .nodes ns => .ok (Seed.subgraphBySecondNeighbors g ns)
  | .upstream, .nodes ns => .ok (Seed.multiCausalUpstream g ns)
  | .downstream, .nodes ns => .ok (Seed.multiCausalDownstream g ns)
  | .pubmed, .strings ss => .ok (some (Seed.subgraphByPubmed g ss))
  | .authors, .strings ss => .ok (some (Seed.subgraphByAuthors g ss))
  | .annotations, .annotations filt orMode => .ok (some (Seed.subgraphByAnnotations g filt orMode))
  | .sample, .sample numberEdges seed => .ok (some (Seed.randomSubgraph g numberEdges seed))
  | _, _ => .error "TypeError: seed data does not match seed method"

/-- `expand_nodes_neighborhoods(graph, result, nodes)` (from
`pybel_tools.mutation.expansion`, not under `src/`). Modelled from the
spec: for each listed node, add its full neighborhood — in-edges,
out-edges and their endpoint nodes — sourced from the original input
graph `g`, merging into the working result. -/
def expandNodesNeighborhoods (g result : Graph) (ns : List Node) : Graph :=
  safeAddEdges result (Seed.incidentEdges g ns)

/-- `get_subgraph(graph, seed_method=None, seed_data=None,
expand_nodes=None, remove_nodes=None)`: the pipeline query.  Order of
operations: 1. seed by the given method and data (no method: a full
copy of the graph); 2. a `None` seed result returns immediately;
3. expand around the given nodes from the original graph; 4. delete
the given nodes (nodes not present are silently skipped).  Unset
`expand_nodes` / `remove_nodes` are the empty list (both `None` and
`[]` are falsy in Python). -/
def getSubgraph (g : Graph) (seedMethod : Option SeedMethod) (seedData : SeedData)
    (expandNodes : List Node) (removeNodes : List Node) :
    Except String (Option Graph) :=
  let seeded : Except String (Option Graph) :=
    match seedMethod with
    | some m => seedDispatch g m seedData
    | none => .ok (some g.copy)
  match seeded with
  | .error e => .error e
  | .ok none => .ok none
  | .ok (some result) =>
    let result := if !expandNodes.isEmpty then expandNodesNeighborhoods g result expandNodes else result
    let result := if !removeNodes.isEmpty then
        removeNodes.foldl (fun r n => if r.hasNode n then r.removeNode n else r) result
      else result
    .ok (some result)

/-!
### The `DatabaseService` of `api.py`

Python dictionaries are embedded as association lists with
first-occurrence lookup; dictionary assignment replaces the first
occurrence of the key or appends.  Collaborators of `api.py` that are
not under `src/` (the identifier assignment of
`relabel_graph_with_int_identifiers`, `decanonicalize_node`, the
enrichment functions and the network store behind
`manager.session`) are bundled in an `Externals` record. -/

/-- Association-list lookup (Python `d[k]` / `k in d`). -/
def alLookup {κ ν : Type} [DecidableEq κ] : List (κ × ν) → κ → Option ν
  | [], _ => none
  | p :: l, k => if p.1 = k then some p.2 else alLookup l k

/-- Association-list assignment (Python `d[k] = v`): replaces the first
binding of the key, or appends a new one. -/
def alInsert {κ ν : Type} [DecidableEq κ] : List (κ × ν) → κ → ν → List (κ × ν)
  | [], k, v => [(k, v)]
  | p :: l, k, v => if p.1 = k then (k, v) :: l else p :: alInsert l k v

/-- Association-list deletion (Python `del d[k]`). -/
def alErase {κ ν : Type} [DecidableEq κ] (l : List (κ × ν)) (k : κ) : List (κ × ν) :=
  l.filter fun p => decide (p.1 ≠ k)

/-- Set-union accumulation (Python `s |= t` on sets): keep the left
operand and add the missing elements of the right one. -/
def listUnion {α : Type} [DecidableEq α] (xs ys : List α) : List α :=
  xs ++ ys.filter fun y => decide (y ∉ xs)

/-- A row of the `NetworkStore` (`pybel.manager.models.Network`): id,
name, creation stamp, and the stored graph (`none` models a row whose
`as_bel()` raises). -/
structure StoreRecord where
  id : Nat
  name : String
  created : Nat
  raw : Option Graph
deriving DecidableEq, Repr

/-- The external collaborators of `DatabaseService` that are not under
`src/`, modelled from the spec: the structural-content identifier
assignment of `relabel_graph_with_int_identifiers` (node and edge ids
from content), `decanonicalize_node`, the enrichment steps
(`parse_authors`, `infer_central_dogma`, `add_canonical_names`,
`enrich_pubmed_citations` — each may raise), and the persistent network
store. -/
structure Externals where
  identNode : Node → Nat
  identEdge : Edge → Nat
  decanonicalize : Node → String
  parseAuthors : Graph → Except String Graph
  inferCentralDogma : Graph → Except String Graph
  addCanonicalNames : Graph → Except String Graph
  enrichPubmedCitations : Graph → Except String Graph
  store : List StoreRecord

/-- The mutable state of `DatabaseService.__init__`: the per-id network
cache, the node/BEL/edge identifier indexes, the merged universe graph
with its pubmed/author keyword caches, the degree index, and the
pairwise similarity cache (`overlap_cache`, a `defaultdict(dict)`). -/
structure DbState where
  networks : List (Nat × Graph)
  node_nid : List (Node × Nat)
  nid_node : List (Nat × Node)
  bel_id : List (String × Nat)
  id_bel : List (Nat × String)
  universeGraph : Graph
  universe_pmids : List String
  universe_authors : List String
  node_degrees : List (Nat × List (Node × Nat))
  overlap_cache : List (Nat × List (Nat × Rat))
  eid_edge : List (Nat × (Node × Node × EdgeData))
  edge_tuple_eid : List (Edge × Nat)
deriving DecidableEq, Repr

/-- The freshly initialized service: every cache empty. -/
def DbState.init : DbState :=
  ⟨[], [], [], [], [], Graph.empty, [], [], [], [], [], []⟩

/-- The node loop of `update_indexes(graph)`: a node already present
in `node_nid` is skipped (first-seen id wins); otherwise its content
id, reverse binding and BEL-string bindings are stored.  (The early
return for graphs whose nodes were already converted to `int`
identifiers cannot arise in the typed embedding.) -/
def indexNodes (ext : Externals) (st : DbState) (g : Graph) : DbState :=
  g.nodes.foldl (fun st node =>
    if (alLookup st.node_nid node).isSome then st
    else
      let nodeId := ext.identNode node
      let bel := ext.decanonicalize node
      { st with
          node_nid := alInsert st.node_nid node nodeId
          nid_node := alInsert st.nid_node nodeId node
          id_bel := alInsert st.id_bel nodeId bel
          bel_id := alInsert st.bel_id bel nodeId }) st

/-- The edge loop of `update_indexes`: every edge's content tuple is
(re)bound to its content id. -/
def indexEdges (ext : Externals) (st : DbState) (g : Graph) : DbState :=
  g.edges.foldl (fun st e =>
    let edgeId := ext.identEdge e
    { st with
        edge_tuple_eid := alInsert st.edge_tuple_eid e edgeId
        eid_edge := alInsert st.eid_edge edgeId (e.u, e.v, e.data) }) st

/-- `update_indexes(graph)`: the node loop followed by the edge
loop. -/
def updateIndexes (ext : Externals) (st : DbState) (g : Graph) : DbState :=
  indexEdges ext (indexNodes ext st g) g

/-- networkx `Counter(graph.degree())`: total (in + out) degree per
node. -/
def Graph.degreeOf (g : Graph) (n : Node) : Nat :=
  (g.edges.filter fun e => decide (e.u = n)).length +
    (g.edges.filter fun e => decide (e.v = n)).length

/-- The degree map of a graph. -/
def Graph.degrees (g : Graph) : List (Node × Nat) :=
  g.nodes.dedup.map fun n => (n, g.degreeOf n)

/-- `get_pubmed_identifiers` (from `pybel_tools.summary.provenance`,
not under `src/`). Modelled from the spec: the citation references of
the graph's edges. -/
def Graph.pubmedIdentifiers (g : Graph) : List String :=
  g.edges.filterMap fun e => e.data.citation

/-- `get_authors` (not under `src/`). Modelled from the spec: the union
of the citation author lists of the graph's edges. -/
def Graph.allAuthors (g : Graph) : List String :=
  g.edges.flatMap fun e => e.data.authors

/-- pybel's `left_full_join` (external): existing-wins merge into the
universe — existing nodes and keyed edges are never overwritten, only
new ones are added. -/
def leftFullJoin (u g : Graph) : Graph where
  nodes := u.nodes ++ g.nodes.filter fun n => decide (n ∉ u.nodes)
  edges := u.edges ++ g.edges.filter fun e =>
    !u.edges.any fun e' => decide (e'.u = e.u) && decide (e'.v = e.v) && decide (e'.key = e.key)

/-- `manager.session.query(Network).get(network_id)` followed by
`network.as_bel()`: the raw graph of the store row, `none` when the row
is missing or loading from bytes raises. -/
def storeRaw (ext : Externals) (networkId : Nat) : Option Graph :=
  match ext.store.find? fun r => decide (r.id = networkId) with
  | some r => r.raw
  | none => none

/-- `DatabaseService._add_network(network_id, force_reload=False,
eager=False, maintain_universe=True)`.  A cached id without
`force_reload` is returned unchanged.  A failure of `as_bel()` is
caught by the bare `except` and yields `None` (the id is skipped, not
cached).  The enrichment steps run outside that `try` block, so an
exception raised by one of them propagates; the result pairs the
service state with the outcome because the state mutations made before
a raise persist on `self`: `parse_authors`, `infer_central_dogma` and
`add_canonical_names` only mutate the graph, so their exceptions leave
the state untouched, while the eager `enrich_pubmed_citations` runs
after `update_indexes`, the degree-map write and the pubmed cache
update — a raise there keeps those writes but never caches the
graph.  On success the author cache and (optionally) the universe are
also updated and the graph is stored in the per-id cache. -/
def addNetwork (ext : Externals) (st : DbState) (networkId : Nat)
    (forceReload : Bool := false) (eager : Bool := false)
    (maintainUniverse : Bool := true) :
    DbState × Except String (Option Graph) :=
  if (alLookup st.networks networkId).isSome && !forceReload then
    (st, .ok (alLookup st.networks networkId))
  else
    match storeRaw ext networkId with
    | none => (st, .ok none)
    | some graph =>
      match ext.parseAuthors graph with
      | .error err => (st, .error err)
      | .ok graph =>
      match ext.inferCentralDogma graph with
      | .error err => (st, .error err)
      | .ok graph =>
      match ext.addCanonicalNames graph with
      | .error err => (st, .error err)
      | .ok graph =>
        let st := updateIndexes ext st graph
        let st := { st with node_degrees := alInsert st.node_degrees networkId graph.degrees }
        let st := { st with universe_pmids := listUnion st.universe_pmids graph.pubmedIdentifiers }
        match (if eager then ext.enrichPubmedCitations graph else .ok graph : Except String Graph) with
        | .error err => (st, .error err)
        | .ok graph =>
          let st := { st with universe_authors := listUnion st.universe_authors graph.allAuthors }
          let st := if maintainUniverse then { st with universeGraph := leftFullJoin st.universeGraph graph } else st
          let st := { st with networks := alInsert st.networks networkId graph }
          (st, .ok (some graph))

/-- `DatabaseService.get_network_by_id(network_id)` for an integer id:
on a cache miss, `_add_network` runs first (with its default arguments,
so `eager` is false and every exception path leaves the state
untouched); then the per-id cache is read (`self.networks[network_id]`,
a `KeyError` when the load failed).  (The `None` argument returning the
universe and the `str` → `int` coercion are not modelled; ids are
integers here.) -/
def getNetworkById (ext : Externals) (st : DbState) (networkId : Nat) :
    Except String (DbState × Graph) :=
  ((if (alLookup st.networks networkId).isNone
    then match addNetwork ext st networkId with
      | (_, .error err) => .error err
      | (st', .ok _) => .ok st'
    else .ok st : Except String DbState)).bind fun st' =>
    match alLookup st'.networks networkId with
    | some result => .ok (st', result)
    | none => .error "KeyError"

/-- The most recently created record of a list (the
`group_by(name).having(func.max(created))` row of the store query);
`none` on an empty list. -/
def argmaxCreated : List StoreRecord → Option StoreRecord
  | [] => none
  | r :: rs =>
    match argmaxCreated rs with
    | none => some r
    | some m => if m.created > r.created then some m else some r

/-- Insert into a list sorted by descending creation stamp. -/
def insertByCreatedDesc (r : StoreRecord) : List StoreRecord → List StoreRecord
  | [] => [r]
  | x :: xs => if r.created ≥ x.created then r :: x :: xs else x :: insertByCreatedDesc r xs

/-- `list_recent_networks()`: the most recently created version of each
network name, in descending recency (an external database query,
modelled from the spec). -/
def listRecentNetworks (ext : Externals) : List StoreRecord :=
  let names := (ext.store.map StoreRecord.name).dedup
  let picks := names.filterMap fun nm =>
    argmaxCreated (ext.store.filter fun r => decide (r.name = nm))
  picks.foldl (fun acc r => insertByCreatedDesc r acc) []

/-- `list_recent_network_ids()`. -/
def listRecentNetworkIds (ext : Externals) : List Nat :=
  (listRecentNetworks ext).map StoreRecord.id

/-- `DatabaseService.get_network_by_name(network_name)`: query the
store for networks with the name keeping the most recent; when nothing
matches return the universe graph, otherwise fetch the most recent
matching network by its id. -/
def getNetworkByName (ext : Externals) (st : DbState) (name : String) :
    Except String (DbState × Graph) :=
  let query := ext.store.filter fun r => decide (r.name = name)
  match argmaxCreated query with
  | none => .ok (st, st.universeGraph)
  | some r => getNetworkById ext st r.id

/-- `min_tanimoto_set_similarity` (from `pybel_tools.utils`, not under
`src/`). Modelled from the spec: |A∩B| / min(|A|, |B|) over node sets,
`0` when an operand is empty. -/
def minTanimoto (x y : List Node) : Rat :=
  let xs := x.dedup
  let ys := y.dedup
  let inter := (xs.filter fun n => decide (n ∈ ys)).length
  let m := min xs.length ys.length
  if m = 0 then 0 else (inter : Rat) / (m : Rat)

/-- The similarity-cache row of a network id (`overlap_cache` is a
`defaultdict(dict)`, so a missing row reads as empty). -/
def lookupRow (st : DbState) (a : Nat) : List (Nat × Rat) :=
  (alLookup st.overlap_cache a).getD []

/-- The cached similarity of an ordered id pair. -/
def lookup2 (st : DbState) (a b : Nat) : Option Rat :=
  alLookup (lookupRow st a) b

/-- A `defaultdict` read `overlap_cache[a]` materializes an empty row
for a missing key. -/
def ensureRow (st : DbState) (a : Nat) : DbState :=
  if (alLookup st.overlap_cache a).isSome then st
  else { st with overlap_cache := st.overlap_cache ++ [(a, [])] }

/-- `overlap_cache[a][b] = q`. -/
def setOverlap (st : DbState) (a b : Nat) (q : Rat) : DbState :=
  { st with overlap_cache := alInsert st.overlap_cache a (alInsert (lookupRow st a) b q) }

/-- The loop body of `get_node_overlap`: skip the id itself and pairs
already cached; load the other network (a raised exception aborts the
loop with the writes made so far); compute the minimum-Tanimoto overlap
of the node sets and write it into both directions of the cache in the
same step. -/
def overlapLoop (ext : Externals) (networkId : Nat) (nodes : List Node) :
    DbState → List Nat → DbState × Except String Unit
  | st, [] => (st, .ok ())
  | st, o :: rest =>
    if o = networkId then overlapLoop ext networkId nodes st rest
    else if (lookup2 st networkId o).isSome then overlapLoop ext networkId nodes st rest
    else
      match getNetworkById ext st o with
      | .error err => (st, .error err)
      | .ok (st', other) =>
        let overlap := minTanimoto nodes other.nodes
        let st' := setOverlap st' networkId o overlap
        let st' := setOverlap st' o networkId overlap
        overlapLoop ext networkId nodes st' rest

/-- `DatabaseService.get_node_overlap(network_id)`: determine the
recent network ids not yet present in this id's cache row (the
`defaultdict` read materializes the row); when there are none, return
the accumulated row.  Otherwise load this network, take its node set,
run the pairwise loop, and return the accumulated row.  The state is
returned alongside the result or the propagated exception. -/
def getNodeOverlap (ext : Externals) (st : DbState) (networkId : Nat) :
    DbState × Except String (List (Nat × Rat)) :=
  let st := ensureRow st networkId
  let others := (listRecentNetworkIds ext).filter fun o =>
    (alLookup (lookupRow st networkId) o).isNone
  if others.isEmpty then
    (st, .ok (lookupRow st networkId))
  else
    match getNetworkById ext st networkId with
    | .error err => (st, .error err)
    | .ok (st', network) =>
      let nodes := network.nodes.dedup
      match overlapLoop ext networkId nodes st' others with
      | (st'', .error err) => (st'', .error err)
      | (st'', .ok ()) => (st'', .ok (lookupRow st'' networkId))

/-- The similarity-cache state reached by a sequence of
`get_node_overlap` calls. -/
def overlapCalls (ext : Externals) (st : DbState) (ids : List Nat) : DbState :=
  ids.foldl (fun st n => (getNodeOverlap ext st n).1) st

/-- First block of `forget_network`: `if network_id in self.networks:
del self.networks[network_id]`. -/
def forgetNetworks (st : DbState) (networkId : Nat) : DbState :=
  if (alLookup st.networks networkId).isSome then
    { st with networks := alErase st.networks networkId }
  else st

/-- Second block of `forget_network`: delete the id from the degree
index when present. -/
def forgetDegrees (st : DbState) (networkId : Nat) : DbState :=
  if (alLookup st.node_degrees networkId).isSome then
    { st with node_degrees := alErase st.node_degrees networkId }
  else st

/-- Third block of `forget_network`: when the id owns a similarity row,
delete the row and then the id's entry from every remaining row. -/
def forgetOverlap (st : DbState) (networkId : Nat) : DbState :=
  if (alLookup st.overlap_cache networkId).isSome then
    let cache := alErase st.overlap_cache networkId
    { st with overlap_cache := cache.map fun p => (p.1, alErase p.2 networkId) }
  else st

/-- `DatabaseService.forget_network(network_id)`: remove the id from
the per-id cache and the degree index; when the id owns a similarity
row, delete the row and then the id's entry from every remaining
row. -/
def forgetNetwork (st : DbState) (networkId : Nat) : DbState :=
  forgetOverlap (forgetDegrees (forgetNetworks st networkId) networkId) networkId

/-- Pair coherence of the similarity cache: every entry `(j, q)` of a
cache row `k` has a counterpart entry for `k` in row `j`.  The paired
writes of `get_node_overlap` maintain exactly this. -/
def PairCoherent (st : DbState) : Prop :=
  ∀ p ∈ st.overlap_cache, ∀ e ∈ p.2, (lookup2 st e.1 p.1).isSome

instance (st : DbState) : Decidable (PairCoherent st) := by
  unfold PairCoherent
  infer_instance

/-- The similarity-cache invariant: cached scores are symmetric, lie in
[0, 1], and no network id appears in its own row. -/
def OverlapInv (st : DbState) : Prop :=
  (∀ a b q, lookup2 st a b = some q → lookup2 st b a = some q) ∧
  (∀ a b q, lookup2 st a b = some q → 0 ≤ q ∧ q ≤ 1) ∧
  (∀ a, lookup2 st a a = none)

/-! Concrete values used to instantiate theorems with hypotheses. -/

/-- Example node A. -/
def exA : Node := ⟨"Protein", "A"⟩

/-- Example node B. -/
def exB : Node := ⟨"Protein", "B"⟩

/-- Example node C. -/
def exC : Node := ⟨"Protein", "C"⟩

/-- Example node D, absent from the example graph. -/
def exD : Node := ⟨"Protein", "D"⟩

/-- Example edge data. -/
def exData : EdgeData := ⟨"increases", some "1000", ["Author A"], [("Cell", ["neuron"])]⟩

/-- Example edge A→B. -/
def exAB : Edge := ⟨exA, exB, 0, exData⟩

/-- Example edge B→C. -/
def exBC : Edge := ⟨exB, exC, 0, exData⟩

/-- The example graph of the spec: nodes {A, B, C}, edges A→B and
B→C. -/
def exGraph : Graph := ⟨[exA, exB, exC], [exAB, exBC]⟩

/-- A small raw graph held by the example store. -/
def exRawGraph : Graph := ⟨[exA, exB], [exAB]⟩

/-- A second raw graph held by the example store. -/
def exRawGraph2 : Graph := ⟨[exB, exC], [exBC]⟩

/-- A concrete structural-content identifier for the example nodes. -/
def exIdentNode : Node → Nat :=
  fun n => if n = exA then 11 else if n = exB then 12 else if n = exC then 13 else 14

/-- A concrete structural-content identifier for the example edges. -/
def exIdentEdge : Edge → Nat :=
  fun e => if e = exAB then 21 else if e = exBC then 22 else 23

/-- Example externals whose enrichment steps all succeed. -/
def extOk : Externals where
  identNode := exIdentNode
  identEdge := exIdentEdge
  decanonicalize := fun n => n.func ++ "(" ++ n.name ++ ")"
  parseAuthors := fun g => .ok g
  inferCentralDogma := fun g => .ok g
  addCanonicalNames := fun g => .ok g
  enrichPubmedCitations := fun g => .ok g
  store := [⟨1, "alpha", 5, some exRawGraph⟩, ⟨2, "alpha", 9, some exRawGraph2⟩,
            ⟨3, "beta", 7, some exRawGraph⟩]

/-- Example externals whose author-parsing enrichment step raises. -/
def extBad : Externals where
  identNode := exIdentNode
  identEdge := exIdentEdge
  decanonicalize := fun n => n.func ++ "(" ++ n.name ++ ")"
  parseAuthors := fun _ => .error "AttributeError in parse_authors"
  inferCentralDogma := fun g => .ok g
  addCanonicalNames := fun g => .ok g
  enrichPubmedCitations := fun g => .ok g
  store := [⟨1, "alpha", 5, some exRawGraph⟩]

/-- Example externals whose eager citation-enrichment step raises. -/
def extEagerBad : Externals where
  identNode := exIdentNode
  identEdge := exIdentEdge
  decanonicalize := fun n => n.func ++ "(" ++ n.name ++ ")"
  parseAuthors := fun g => .ok g
  inferCentralDogma := fun g => .ok g
  addCanonicalNames := fun g => .ok g
  enrichPubmedCitations := fun _ => .error "ConnectionError in enrich_pubmed_citations"
  store := [⟨1, "alpha", 5, some exRawGraph⟩]

/-- The example service state obtained by loading network 1 of `extOk`
into the fresh service. -/
def exState : DbState :=
  (addNetwork extOk DbState.init 1).1

/-! ### Lemmas about the graph operations -/

/-- `addNode` does not change the edge list. -/
theorem Graph.addNode_edges (g : Graph) (n : Node) : (g.addNode n).edges = g.edges := by
  unfold Graph.addNode
  split <;> rfl

/-- An edge of `g.addEdge e` is an edge of `g` or `e` itself. -/
theorem Graph.mem_addEdge_edges {g : Graph} {e e' : Edge}
    (h : e' ∈ (g.addEdge e).edges) : e' ∈ g.edges ∨ e' = e := by
  simp only [Graph.addEdge] at h
  split at h
  · rw [Graph.addNode_edges, Graph.addNode_edges] at h
    exact Or.inl h
  · simp only [Graph.addNode_edges] at h
    rcases List.mem_append.mp h with h' | h'
    · exact Or.inl h'
    · exact Or.inr (List.mem_singleton.mp h')

/-- An edge of `safeAddEdges g es` is an edge of `g` or one of the
added edges `es`. -/
theorem mem_safeAddEdges_edges {es : List Edge} {g : Graph} {e : Edge}
    (h : e ∈ (safeAddEdges g es).edges) : e ∈ g.edges ∨ e ∈ es := by
  induction es generalizing g with
  | nil => exact Or.inl h
  | cons x xs ih =>
    rcases ih h with h' | h'
    · rcases Graph.mem_addEdge_edges h' with h'' | h''
      · exact Or.inl h''
      · exact Or.inr (by simp [h''])
    · exact Or.inr (List.mem_cons_of_mem _ h')

/-- Membership in the incident-edge selection. -/
theorem mem_incidentEdges {g : Graph} {ns : List Node} {e : Edge} :
    e ∈ Seed.incidentEdges g ns ↔ e ∈ g.edges ∧ (e.u ∈ ns ∨ e.v ∈ ns) := by
  simp [Seed.incidentEdges, List.mem_filter]

/-! ### Pipeline claims -/

/-- **C1.** In the pipeline `query(graph, seedMethod, seedData,
expandNodes, removeNodes)`, the neighborhood added for each listed
expand node is taken from the original input graph, not from the
already-seeded working result: every edge of the expanded working
result either was already in the working result or is an edge of the
original graph incident to a listed node, and after a seed yielding
`some r₀` the pipeline's expand step is exactly
`expandNodesNeighborhoods graph r₀ expandNodes`.  In particular, for
the graph with nodes {A,B,C} and edges A→B, B→C, seeding `induction`
on {A,B} and expanding on [C] yields a result containing node C and
edge B→C. -/
theorem claim_C1_expand_sources_original_graph :
    (∀ (g result : Graph) (ns : List Node) (e : Edge),
        e ∈ (expandNodesNeighborhoods g result ns).edges →
        e ∈ result.edges ∨ (e ∈ g.edges ∧ (e.u ∈ ns ∨ e.v ∈ ns))) ∧
    (∀ (g : Graph) (m : SeedMethod) (d : SeedData) (ens : List Node) (r₀ : Graph),
        ens ≠ [] → seedDispatch g m d = .ok (some r₀) →
        getSubgraph g (some m) d ens [] = .ok (some (expandNodesNeighborhoods g r₀ ens))) ∧
    (∃ r, getSubgraph exGraph (some .induction) (.nodes [exA, exB]) [exC] [] = .ok (some r) ∧
        exC ∈ r.nodes ∧ exBC ∈ r.edges) := by
  refine ⟨?_, ?_, ?_⟩
  · intro g result ns e h
    rcases mem_safeAddEdges_edges h with h' | h'
    · exact Or.inl h'
    · exact Or.inr (mem_incidentEdges.mp h')
  · intro g m d ens r₀ hens hseed
    cases ens with
    | nil => exact absurd rfl hens
    | cons x xs => simp [getSubgraph, hseed]
  · exact ⟨⟨[exA, exB, exC], [exAB, exBC]⟩, by decide, by decide, by decide⟩

/-- Witness for C1: instantiating the first conjunct at the example
graph — the edge B→C added while expanding on [C] is an edge of the
original graph incident to C. -/
theorem claim_C1_expand_sources_original_graph_witness :
    exBC ∈ (exGraph.subgraph [exA, exB]).edges ∨
      (exBC ∈ exGraph.edges ∧ (exBC.u ∈ [exC] ∨ exBC.v ∈ [exC])) :=
  claim_C1_expand_sources_original_graph.1 exGraph (exGraph.subgraph [exA, exB]) [exC] exBC
    (by decide)

/-- **C2.** If the seed step of the pipeline yields the no-result
sentinel (`None`), the pipeline returns no-result immediately for every
`expandNodes` / `removeNodes` argument — the expand and remove steps do
not run — and the sentinel is distinct from an empty-but-valid
graph. -/
theorem claim_C2_seed_none_short_circuit (g : Graph) (m : SeedMethod) (d : SeedData)
    (ens rns : List Node) (h : seedDispatch g m d = .ok none) :
    getSubgraph g (some m) d ens rns = .ok none ∧
    (none : Option Graph) ≠ some Graph.empty := by
  constructor
  · simp [getSubgraph, h]
  · simp

/-- Witness for C2: seeding `induction` on the absent node D yields the
sentinel, and the pipeline with expand and remove arguments returns the
sentinel. -/
theorem claim_C2_seed_none_short_circuit_witness :
    getSubgraph exGraph (some .induction) (.nodes [exD]) [exC] [exA] = .ok none ∧
    (none : Option Graph) ≠ some Graph.empty :=
  claim_C2_seed_none_short_circuit exGraph .induction (.nodes [exD]) [exC] [exA] (by decide)

/-- **C8.** The induction seed returns the no-result sentinel exactly
when none of the requested nodes exist in the source graph, and
otherwise returns the subgraph induced over exactly the given node
set: the requested nodes that are present, plus the edges strictly
between them.  (The embedding is functional, so the source graph is
never modified.) -/
theorem claim_C8_induction_seed (g : Graph) (ns : List Node) :
    (Seed.subgraphByInduction g ns = none ↔ ∀ n ∈ ns, n ∉ g.nodes) ∧
    (∀ r, Seed.subgraphByInduction g ns = some r →
      (∀ n, n ∈ r.nodes ↔ n ∈ ns ∧ n ∈ g.nodes) ∧
      (∀ e, e ∈ r.edges ↔ e ∈ g.edges ∧ e.u ∈ ns ∧ e.v ∈ ns)) := by
  constructor
  · unfold Seed.subgraphByInduction
    split
    · next hcond =>
      simp only [List.all_eq_true, Graph.hasNode, Bool.not_eq_true', decide_eq_false_iff_not] at hcond
      exact iff_of_true rfl hcond
    · next hcond =>
      simp only [List.all_eq_true, Graph.hasNode, Bool.not_eq_true', decide_eq_false_iff_not] at hcond
      push_neg at hcond
      constructor
      · intro h; cases h
      · intro h
        obtain ⟨n, hn, hmem⟩ := hcond
        exact absurd (h n hn) (not_not_intro hmem)
  · intro r hr
    unfold Seed.subgraphByInduction at hr
    split at hr
    · cases hr
    · cases hr
      constructor
      · intro n
        simp [Graph.subgraph, List.mem_filter, and_comm]
      · intro e
        simp [Graph.subgraph, List.mem_filter, and_assoc]

/-- Witness for C8: for the node set {D} disjoint from the example
graph the induction seed yields the sentinel. -/
theorem claim_C8_induction_seed_witness :
    Seed.subgraphByInduction exGraph [exD] = none :=
  (claim_C8_induction_seed exGraph [exD]).1.mpr (by decide)

/-- **C9.** With no seed method (and no expand/remove arguments) the
pipeline yields a full copy of the input graph — identical node and
edge counts — and never the no-result sentinel. -/
theorem claim_C9_no_seed_passthrough (g : Graph) (d : SeedData) :
    getSubgraph g none d [] [] = .ok (some g.copy) ∧
    (Graph.copy g).nodes.length = g.nodes.length ∧
    (Graph.copy g).edges.length = g.edges.length ∧
    getSubgraph g none d [] [] ≠ .ok none := by
  refine ⟨rfl, rfl, rfl, ?_⟩
  intro h
  cases h

/-! ### Lemmas about association lists -/

theorem alLookup_alInsert {κ ν : Type} [DecidableEq κ] (l : List (κ × ν)) (k k' : κ) (v : ν) :
    alLookup (alInsert l k v) k' = if k' = k then some v else alLookup l k' := by
  induction l with
  | nil =>
    simp only [alInsert, alLookup]
    by_cases h : k' = k
    · subst h; simp
    · rw [if_neg (fun hh => h hh.symm), if_neg h]
  | cons p l ih =>
    by_cases hp : p.1 = k
    · simp only [alInsert, hp, if_pos, alLookup]
      by_cases h : k' = k
      · subst h; simp
      · rw [if_neg (fun hh => h hh.symm), if_neg h, if_neg (fun hh : k = k' => h hh.symm)]
    · simp only [alInsert, hp, ite_false, alLookup]
      by_cases h : p.1 = k'
      · have hk : ¬ k' = k := fun hh => hp (h.trans hh)
        rw [if_pos h, if_neg hk, if_pos h]
      · rw [if_neg h, ih, if_neg h]

theorem alInsert_self {κ ν : Type} [DecidableEq κ] {l : List (κ × ν)} {k : κ} {v : ν}
    (h : alLookup l k = some v) : alInsert l k v = l := by
  induction l with
  | nil => simp [alLookup] at h
  | cons p l ih =>
    obtain ⟨pk, pv⟩ := p
    by_cases hp : pk = k
    · subst hp
      simp only [alLookup, if_pos] at h
      obtain rfl := Option.some_injective _ h
      simp [alInsert]
    · simp only [alLookup, hp, ite_false] at h
      simp [alInsert, hp, ih h]

theorem alLookup_alErase {κ ν : Type} [DecidableEq κ] (l : List (κ × ν)) (k k' : κ) :
    alLookup (alErase l k) k' = if k' = k then none else alLookup l k' := by
  induction l with
  | nil => simp [alErase, alLookup]
  | cons p l ih =>
    simp only [alErase, List.filter_cons] at ih ⊢
    by_cases hp : p.1 = k
    · have hd : decide (p.1 ≠ k) = false := by simp [hp]
      rw [hd, if_neg Bool.false_ne_true]
      by_cases h : k' = k
      · rw [ih, if_pos h, if_pos h]
      · have hp' : ¬ p.1 = k' := fun hh => h (hh.symm.trans hp)
        rw [ih, if_neg h, if_neg h, alLookup, if_neg hp']
    · have hd : decide (p.1 ≠ k) = true := by simp [hp]
      rw [hd, if_pos rfl]
      show alLookup (p :: _) k' = _
      by_cases h : p.1 = k'
      · have hk : ¬ k' = k := fun hh => hp (h.trans hh)
        rw [alLookup, if_pos h, if_neg hk, alLookup, if_pos h]
      · rw [alLookup, if_neg h, ih, alLookup, if_neg h]

theorem mem_of_alLookup_eq_some {κ ν : Type} [DecidableEq κ] {l : List (κ × ν)} {k : κ} {v : ν}
    (h : alLookup l k = some v) : (k, v) ∈ l := by
  induction l with
  | nil => simp [alLookup] at h
  | cons p l ih =>
    by_cases hp : p.1 = k
    · simp only [alLookup, hp, if_pos] at h
      obtain rfl := Option.some_injective _ h
      simp [← hp]
    · simp only [alLookup, hp, ite_false] at h
      exact List.mem_cons_of_mem _ (ih h)

/-- A generic preservation principle for `List.foldl` over a state. -/
theorem foldl_preserves {α σ β : Type} (f : σ → α → σ) (proj : σ → β)
    (h : ∀ s a, proj (f s a) = proj s) :
    ∀ (l : List α) (s : σ), proj (l.foldl f s) = proj s := by
  intro l
  induction l with
  | nil => intro s; rfl
  | cons a l ih => intro s; rw [List.foldl_cons, ih, h]

/-! ### Lemmas about the service operations -/

/-- `update_indexes` does not touch the similarity cache. -/
theorem updateIndexes_overlap_cache (ext : Externals) (st : DbState) (g : Graph) :
    (updateIndexes ext st g).overlap_cache = st.overlap_cache := by
  simp only [updateIndexes, indexEdges, indexNodes]
  refine (foldl_preserves _ DbState.overlap_cache ?_ _ _).trans
    (foldl_preserves _ DbState.overlap_cache ?_ _ _)
  · intro s a; rfl
  · intro s a; dsimp only; split <;> rfl

/-- `update_indexes` does not touch the per-id network cache. -/
theorem updateIndexes_networks (ext : Externals) (st : DbState) (g : Graph) :
    (updateIndexes ext st g).networks = st.networks := by
  simp only [updateIndexes, indexEdges, indexNodes]
  refine (foldl_preserves _ DbState.networks ?_ _ _).trans
    (foldl_preserves _ DbState.networks ?_ _ _)
  · intro s a; rfl
  · intro s a; dsimp only; split <;> rfl

/-- `_add_network` never writes the similarity cache, on its success
and exception paths alike. -/
theorem addNetwork_overlap_cache (ext : Externals) (st : DbState) (networkId : Nat)
    (fr e m : Bool) :
    (addNetwork ext st networkId fr e m).1.overlap_cache = st.overlap_cache := by
  unfold addNetwork
  split
  · rfl
  · split
    · rfl
    · split
      · rfl
      · split
        · rfl
        · split
          · rfl
          · dsimp only
            split
            · simp [updateIndexes_overlap_cache]
            · dsimp only
              split <;> simp [updateIndexes_overlap_cache]

/-- `get_network_by_id` never writes the similarity cache. -/
theorem getNetworkById_overlap_cache {ext : Externals} {st st' : DbState} {networkId : Nat}
    {g : Graph} (h : getNetworkById ext st networkId = .ok (st', g)) :
    st'.overlap_cache = st.overlap_cache := by
  unfold getNetworkById at h
  by_cases hc : (alLookup st.networks networkId).isNone
  · rw [if_pos hc] at h
    rcases hadd : addNetwork ext st networkId with ⟨st₁, res⟩
    rw [hadd] at h
    have h₁ : st₁.overlap_cache = st.overlap_cache := by
      have := addNetwork_overlap_cache ext st networkId false false true
      rw [hadd] at this
      exact this
    cases res with
    | error err => simp [Except.bind] at h
    | ok g? =>
      simp only [Except.bind] at h
      split at h
      · cases h
        exact h₁
      · exact Except.noConfusion h
  · rw [if_neg hc] at h
    simp only [Except.bind] at h
    split at h
    · cases h
      rfl
    · exact Except.noConfusion h

/-! ### Service claims -/

/-- **C3.** For a network id already present in the per-id cache, `get`
without `force_reload` returns the existing cached instance with the
service state unchanged — no re-indexing, no re-merge — and hence two
consecutive `get` calls return the same instance both times. -/
theorem claim_C3_cached_get_identity (ext : Externals) (st : DbState) (networkId : Nat)
    (g : Graph) (h : alLookup st.networks networkId = some g) :
    getNetworkById ext st networkId = .ok (st, g) ∧
    ((getNetworkById ext st networkId).bind fun p => getNetworkById ext p.1 networkId) =
      .ok (st, g) := by
  have h1 : getNetworkById ext st networkId = .ok (st, g) := by
    simp [getNetworkById, h, Except.bind]
  exact ⟨h1, by rw [h1]; simpa [Except.bind] using h1⟩

/-- Witness for C3: the state holding network 1 returns the cached
instance unchanged, twice. -/
theorem claim_C3_cached_get_identity_witness :
    getNetworkById extOk exState 1 = .ok (exState, exRawGraph) ∧
    ((getNetworkById extOk exState 1).bind fun p => getNetworkById extOk p.1 1) =
      .ok (exState, exRawGraph) :=
  claim_C3_cached_get_identity extOk exState 1 exRawGraph (by decide)

/-- **C7, counterexample.** The claim says an exception raised by an
enrichment step is logged and swallowed and the network is still
cached.  In `_add_network` only `network.as_bel()` is inside the
`try`/bare-`except`; the enrichment calls run outside it.  Concretely:
the raw graph of network 1 loads successfully, yet when
`parse_authors` raises, `_add_network` propagates the exception and the
network is not in the per-id cache. -/
theorem claim_C7_counterexample :
    storeRaw extBad 1 = some exRawGraph ∧
    addNetwork extBad DbState.init 1 = (DbState.init, .error "AttributeError in parse_authors") ∧
    alLookup (addNetwork extBad DbState.init 1).1.networks 1 = none :=
  ⟨rfl, rfl, rfl⟩

/-- **C7, amended.** During loading, only failures of the raw byte load
(`network.as_bel()`) are caught, logged and swallowed — the id is
skipped and not cached, with the service state unchanged.  The
enrichment steps run outside the exception handler, so an exception
raised by any of them propagates to the caller and the network is not
cached: author parsing, central-dogma inference and canonical-name
assignment raise before any service-state write, while the eager
citation enrichment raises after the index, degree-map and
pubmed-cache writes — which then persist — but still before the graph
is stored in the per-id cache. -/
theorem claim_C7_amended (ext : Externals) (st : DbState) (networkId : Nat)
    (h : alLookup st.networks networkId = none) :
    (storeRaw ext networkId = none →
      addNetwork ext st networkId = (st, .ok none)) ∧
    (∀ raw err, storeRaw ext networkId = some raw →
      ext.parseAuthors raw = .error err →
      addNetwork ext st networkId = (st, .error err)) ∧
    (∀ raw g₁ err, storeRaw ext networkId = some raw →
      ext.parseAuthors raw = .ok g₁ →
      ext.inferCentralDogma g₁ = .error err →
      addNetwork ext st networkId = (st, .error err)) ∧
    (∀ raw g₁ g₂ err, storeRaw ext networkId = some raw →
      ext.parseAuthors raw = .ok g₁ →
      ext.inferCentralDogma g₁ = .ok g₂ →
      ext.addCanonicalNames g₂ = .error err →
      addNetwork ext st networkId = (st, .error err)) ∧
    (∀ raw g₁ g₂ g₃ err, storeRaw ext networkId = some raw →
      ext.parseAuthors raw = .ok g₁ →
      ext.inferCentralDogma g₁ = .ok g₂ →
      ext.addCanonicalNames g₂ = .ok g₃ →
      ext.enrichPubmedCitations g₃ = .error err →
      (addNetwork ext st networkId false true true).2 = .error err ∧
      alLookup (addNetwork ext st networkId false true true).1.networks networkId = none ∧
      alLookup (addNetwork ext st networkId false true true).1.node_degrees networkId =
        some g₃.degrees) := by
  refine ⟨?_, ?_, ?_, ?_, ?_⟩
  · intro hraw
    simp [addNetwork, h, hraw]
  · intro raw err hraw hpa
    simp [addNetwork, h, hraw, hpa]
  · intro raw g₁ err hraw hpa hcd
    simp [addNetwork, h, hraw, hpa, hcd]
  · intro raw g₁ g₂ err hraw hpa hcd hcn
    simp [addNetwork, h, hraw, hpa, hcd, hcn]
  · intro raw g₁ g₂ g₃ err hraw hpa hcd hcn hec
    refine ⟨?_, ?_, ?_⟩
    · simp [addNetwork, h, hraw, hpa, hcd, hcn, hec]
    · simp [addNetwork, h, hraw, hpa, hcd, hcn, hec, updateIndexes_networks]
    · simp [addNetwork, h, hraw, hpa, hcd, hcn, hec, alLookup_alInsert]

/-- Witness for the amended C7: the failing author parser propagates
out of `_add_network` with the state untouched, and the failing eager
citation enrichment propagates after the degree-map write — network 1
is cached in neither case. -/
theorem claim_C7_amended_witness :
    addNetwork extBad DbState.init 1 = (DbState.init, .error "AttributeError in parse_authors") ∧
    (addNetwork extEagerBad DbState.init 1 false true true).2 =
      .error "ConnectionError in enrich_pubmed_citations" ∧
    alLookup (addNetwork extEagerBad DbState.init 1 false true true).1.networks 1 = none :=
  ⟨(claim_C7_amended extBad DbState.init 1 rfl).2.1 exRawGraph
      "AttributeError in parse_authors" rfl rfl,
   ((claim_C7_amended extEagerBad DbState.init 1 rfl).2.2.2.2 exRawGraph exRawGraph exRawGraph
      exRawGraph "ConnectionError in enrich_pubmed_citations" rfl rfl rfl rfl rfl).1,
   ((claim_C7_amended extEagerBad DbState.init 1 rfl).2.2.2.2 exRawGraph exRawGraph exRawGraph
      exRawGraph "ConnectionError in enrich_pubmed_citations" rfl rfl rfl rfl rfl).2.1⟩

/-! ### Lemmas about the store listing -/

theorem argmaxCreated_eq_none {l : List StoreRecord} : argmaxCreated l = none ↔ l = [] := by
  cases l with
  | nil => simp [argmaxCreated]
  | cons r rs =>
    rcases h : argmaxCreated rs with _ | m <;> simp [argmaxCreated, h]
    split <;> simp

theorem argmaxCreated_mem {l : List StoreRecord} {m : StoreRecord}
    (h : argmaxCreated l = some m) : m ∈ l := by
  induction l generalizing m with
  | nil => cases h
  | cons r rs ih =>
    simp only [argmaxCreated] at h
    rcases h' : argmaxCreated rs with _ | m'
    · rw [h'] at h
      cases h
      simp
    · rw [h'] at h
      simp only [] at h
      by_cases hgt : m'.created > r.created
      · rw [if_pos hgt] at h
        obtain rfl := Option.some.inj h
        exact List.mem_cons_of_mem _ (ih h')
      · rw [if_neg hgt] at h
        obtain rfl := Option.some.inj h
        simp

theorem argmaxCreated_maximal {l : List StoreRecord} {m : StoreRecord}
    (h : argmaxCreated l = some m) : ∀ r ∈ l, r.created ≤ m.created := by
  induction l generalizing m with
  | nil => cases h
  | cons r rs ih =>
    intro r' hr'
    simp only [argmaxCreated] at h
    rcases h' : argmaxCreated rs with _ | m'
    · rw [h'] at h
      cases h
      have hrs : rs = [] := argmaxCreated_eq_none.mp h'
      subst hrs
      obtain rfl := List.mem_singleton.mp hr'
      exact le_refl _
    · rw [h'] at h
      simp only [] at h
      by_cases hgt : m'.created > r.created
      · rw [if_pos hgt] at h
        obtain rfl := Option.some.inj h
        rcases List.mem_cons.mp hr' with rfl | hmem
        · exact le_of_lt hgt
        · exact ih h' _ hmem
      · rw [if_neg hgt] at h
        obtain rfl := Option.some.inj h
        rcases List.mem_cons.mp hr' with rfl | hmem
        · exact le_refl _
        · exact le_trans (ih h' _ hmem) (le_of_not_lt hgt)

/-- **C10.** Fetching a network by name: when the store has no network
with that name, the merged universe graph is returned (no error, no
sentinel); when at least one exists, the most recent one is fetched by
its id. -/
theorem claim_C10_get_network_by_name (ext : Externals) (st : DbState) (name : String) :
    ((∀ r ∈ ext.store, r.name ≠ name) →
      getNetworkByName ext st name = .ok (st, st.universeGraph)) ∧
    (∀ r₀ ∈ ext.store, r₀.name = name →
      ∃ m ∈ ext.store, m.name = name ∧
        (∀ r' ∈ ext.store, r'.name = name → r'.created ≤ m.created) ∧
        getNetworkByName ext st name = getNetworkById ext st m.id) := by
  constructor
  · intro hall
    have hnil : ext.store.filter (fun r => decide (r.name = name)) = [] := by
      rw [List.filter_eq_nil_iff]
      intro r hr
      simpa using hall r hr
    simp [getNetworkByName, hnil, argmaxCreated]
  · intro r₀ h₀ hname
    rcases hm : argmaxCreated (ext.store.filter fun r => decide (r.name = name)) with _ | m
    · exfalso
      have hnil := argmaxCreated_eq_none.mp hm
      have := List.filter_eq_nil_iff.mp hnil r₀ h₀
      simp [hname] at this
    · have hmemq := argmaxCreated_mem hm
      have hmax := argmaxCreated_maximal hm
      have hmem : m ∈ ext.store := (List.mem_filter.mp hmemq).1
      have hmname : m.name = name := by
        have := (List.mem_filter.mp hmemq).2
        simpa using this
      refine ⟨m, hmem, hmname, ?_, ?_⟩
      · intro r' hr' hr'name
        exact hmax r' (List.mem_filter.mpr ⟨hr', by simpa using hr'name⟩)
      · simp [getNetworkByName, hm]

/-- Witness for C10: no stored network is named `"nosuch"`, so the
lookup returns the universe graph of the untouched state. -/
theorem claim_C10_get_network_by_name_witness :
    getNetworkByName extOk DbState.init "nosuch" = .ok (DbState.init, DbState.init.universeGraph) :=
  (claim_C10_get_network_by_name extOk DbState.init "nosuch").1 (by decide)

/-! ### Lemmas about `forget_network` -/

theorem alLookup_map_alErase {l : List (Nat × List (Nat × Rat))} {k nid : Nat} :
    alLookup (l.map fun p => (p.1, alErase p.2 nid)) k =
      (alLookup l k).map fun row => alErase row nid := by
  induction l with
  | nil => simp [alLookup]
  | cons p l ih =>
    by_cases hp : p.1 = k
    · simp [alLookup, hp]
    · simp only [List.map_cons, alLookup, hp, ite_false, ih]

theorem forgetNetworks_networks (st : DbState) (nid : Nat) :
    alLookup (forgetNetworks st nid).networks nid = none := by
  unfold forgetNetworks
  split
  · simp [alLookup_alErase]
  · next hc => simpa using hc

theorem forgetNetworks_other (st : DbState) (nid : Nat) :
    (forgetNetworks st nid).node_degrees = st.node_degrees ∧
    (forgetNetworks st nid).overlap_cache = st.overlap_cache := by
  unfold forgetNetworks
  split <;> exact ⟨rfl, rfl⟩

theorem forgetDegrees_degrees (st : DbState) (nid : Nat) :
    alLookup (forgetDegrees st nid).node_degrees nid = none := by
  unfold forgetDegrees
  split
  · simp [alLookup_alErase]
  · next hc => simpa using hc

theorem forgetDegrees_other (st : DbState) (nid : Nat) :
    (forgetDegrees st nid).networks = st.networks ∧
    (forgetDegrees st nid).overlap_cache = st.overlap_cache := by
  unfold forgetDegrees
  split <;> exact ⟨rfl, rfl⟩

theorem forgetOverlap_other (st : DbState) (nid : Nat) :
    (forgetOverlap st nid).networks = st.networks ∧
    (forgetOverlap st nid).node_degrees = st.node_degrees := by
  unfold forgetOverlap
  split <;> exact ⟨rfl, rfl⟩

theorem forgetOverlap_row (st : DbState) (nid : Nat) :
    alLookup (forgetOverlap st nid).overlap_cache nid = none := by
  unfold forgetOverlap
  split
  · simp [alLookup_map_alErase, alLookup_alErase]
  · next hc => simpa using hc

theorem forgetOverlap_entries (st : DbState) (nid : Nat) (h : PairCoherent st) :
    ∀ k, lookup2 (forgetOverlap st nid) k nid = none := by
  intro k
  unfold forgetOverlap
  split
  · simp only [lookup2, lookupRow, alLookup_map_alErase]
    rcases hrow : alLookup (alErase st.overlap_cache nid) k with _ | row
    · simp [alLookup]
    · simp [alLookup_alErase]
  · next hc =>
    rcases hk : lookup2 st k nid with _ | q
    · rfl
    · exfalso
      have hrow : alLookup st.overlap_cache k ≠ none := by
        intro hn
        simp [lookup2, lookupRow, hn, alLookup] at hk
      rcases hq : alLookup st.overlap_cache k with _ | row
      · exact hrow hq
      · have hkrow : alLookup row nid = some q := by
          simpa [lookup2, lookupRow, hq] using hk
        have hmem := mem_of_alLookup_eq_some hq
        have hemem := mem_of_alLookup_eq_some hkrow
        have := h (k, row) hmem (nid, q) hemem
        simp only [lookup2, lookupRow] at this
        rcases hnid : alLookup st.overlap_cache nid with _ | otherRow
        · rw [hnid] at this
          simp [alLookup] at this
        · exact hc (by simp [hnid])

/-- **C6.** `forget(id)` removes the id from the per-id graph cache,
from the degree index, and from both directions of every
similarity-cache entry referencing it: afterwards the id keys no row of
any per-network index and appears in no remaining similarity row.  The
pair-coherence hypothesis is the shape the paired writes of
`get_node_overlap` always produce (an id referenced by some row owns a
row itself). -/
theorem claim_C6_forget_leaves_no_dangling_keys (st : DbState) (networkId : Nat)
    (h : PairCoherent st) :
    alLookup (forgetNetwork st networkId).networks networkId = none ∧
    alLookup (forgetNetwork st networkId).node_degrees networkId = none ∧
    alLookup (forgetNetwork st networkId).overlap_cache networkId = none ∧
    ∀ k, lookup2 (forgetNetwork st networkId) k networkId = none := by
  unfold forgetNetwork
  refine ⟨?_, ?_, forgetOverlap_row _ _, ?_⟩
  · rw [(forgetOverlap_other _ _).1, (forgetDegrees_other _ _).1]
    exact forgetNetworks_networks st networkId
  · rw [(forgetOverlap_other _ _).2]
    exact forgetDegrees_degrees _ networkId
  · refine forgetOverlap_entries _ _ ?_
    intro p hp e he
    have hcache : (forgetDegrees (forgetNetworks st networkId) networkId).overlap_cache =
        st.overlap_cache := by
      rw [(forgetDegrees_other _ _).2, (forgetNetworks_other _ _).2]
    rw [hcache] at hp
    have := h p hp e he
    simpa [lookup2, lookupRow, hcache] using this

/-- Witness for C6: a concrete coherent state holding network 7 in all
indexes is fully cleansed of it. -/
theorem claim_C6_forget_leaves_no_dangling_keys_witness :
    PairCoherent
      ⟨[(7, exRawGraph), (8, exRawGraph2)], [], [], [], [], Graph.empty, [], [],
        [(7, [(exA, 1)]), (8, [(exB, 1)])],
        [(7, [(8, (1 : Rat))]), (8, [(7, (1 : Rat))])], [], []⟩ ∧
    alLookup (forgetNetwork
      ⟨[(7, exRawGraph), (8, exRawGraph2)], [], [], [], [], Graph.empty, [], [],
        [(7, [(exA, 1)]), (8, [(exB, 1)])],
        [(7, [(8, (1 : Rat))]), (8, [(7, (1 : Rat))])], [], []⟩ 7).networks 7 = none :=
  ⟨by decide, (claim_C6_forget_leaves_no_dangling_keys _ 7 (by decide)).1⟩

/-! ### Lemmas about the similarity cache -/

theorem minTanimoto_nonneg (x y : List Node) : 0 ≤ minTanimoto x y := by
  unfold minTanimoto
  dsimp only
  split
  · exact le_refl 0
  · positivity

theorem minTanimoto_le_one (x y : List Node) : minTanimoto x y ≤ 1 := by
  unfold minTanimoto
  dsimp only
  split
  · exact zero_le_one
  · next hm =>
    have hx : (x.dedup.filter fun n => decide (n ∈ y.dedup)).length ≤ x.dedup.length :=
      List.length_filter_le _ _
    have hy : (x.dedup.filter fun n => decide (n ∈ y.dedup)).length ≤ y.dedup.length := by
      refine List.Subperm.length_le (List.Nodup.subperm ?_ ?_)
      · exact (x.nodup_dedup).filter _
      · intro a ha
        have := List.mem_filter.mp ha
        simpa using this.2
    have hle : (x.dedup.filter fun n => decide (n ∈ y.dedup)).length ≤
        min x.dedup.length y.dedup.length := le_min hx hy
    have hpos : 0 < min x.dedup.length y.dedup.length := Nat.pos_of_ne_zero hm
    rw [div_le_one (by exact_mod_cast hpos)]
    exact_mod_cast hle

theorem lookup2_only_cache {st st' : DbState} (h : st'.overlap_cache = st.overlap_cache) :
    ∀ a b, lookup2 st' a b = lookup2 st a b := by
  intro a b
  simp [lookup2, lookupRow, h]

theorem overlapInv_pointwise {st st' : DbState}
    (h : ∀ a b, lookup2 st' a b = lookup2 st a b) (hinv : OverlapInv st) : OverlapInv st' := by
  obtain ⟨h1, h2, h3⟩ := hinv
  refine ⟨?_, ?_, ?_⟩
  · intro a b q hq
    rw [h] at hq ⊢
    exact h1 a b q hq
  · intro a b q hq
    rw [h] at hq
    exact h2 a b q hq
  · intro a
    rw [h]
    exact h3 a

theorem overlapInv_only_cache {st st' : DbState} (h : st'.overlap_cache = st.overlap_cache)
    (hinv : OverlapInv st) : OverlapInv st' :=
  overlapInv_pointwise (lookup2_only_cache h) hinv

theorem alLookup_append_single {κ ν : Type} [DecidableEq κ] (l : List (κ × ν)) (k k' : κ) (v : ν) :
    alLookup (l ++ [(k, v)]) k' =
      match alLookup l k' with
      | some w => some w
      | none => if k' = k then some v else none := by
  induction l with
  | nil =>
    simp only [List.nil_append, alLookup]
    by_cases h : k' = k
    · subst h
      simp
    · rw [if_neg (fun hh => h hh.symm), if_neg h]
  | cons p l ih =>
    by_cases hp : p.1 = k'
    · simp [alLookup, hp]
    · show alLookup (p :: (l ++ [(k, v)])) k' = _
      rw [alLookup, if_neg hp, ih]
      conv_rhs => rw [alLookup, if_neg hp]

theorem lookup2_ensureRow (st : DbState) (a x y : Nat) :
    lookup2 (ensureRow st a) x y = lookup2 st x y := by
  unfold ensureRow
  split
  · rfl
  · simp only [lookup2, lookupRow, alLookup_append_single]
    rcases hx : alLookup st.overlap_cache x with _ | row
    · by_cases hxa : x = a <;> simp [hxa, alLookup]
    · simp

theorem overlapInv_ensureRow {st : DbState} (a : Nat) (hinv : OverlapInv st) :
    OverlapInv (ensureRow st a) :=
  overlapInv_pointwise (fun x y => lookup2_ensureRow st a x y) hinv

theorem lookup2_setOverlap (st : DbState) (a b x y : Nat) (q : Rat) :
    lookup2 (setOverlap st a b q) x y =
      if x = a then (if y = b then some q else lookup2 st a y) else lookup2 st x y := by
  by_cases hx : x = a
  · subst hx
    simp [setOverlap, lookup2, lookupRow, alLookup_alInsert]
  · simp [setOverlap, lookup2, lookupRow, alLookup_alInsert, hx]

theorem lookup2_pairWrite (st : DbState) (a b : Nat) (q : Rat) (hab : a ≠ b) (x y : Nat) :
    lookup2 (setOverlap (setOverlap st a b q) b a q) x y =
      if x = a ∧ y = b then some q
      else if x = b ∧ y = a then some q
      else lookup2 st x y := by
  simp only [lookup2_setOverlap]
  by_cases hxa : x = a <;> by_cases hxb : x = b <;>
    by_cases hya : y = a <;> by_cases hyb : y = b <;>
    simp_all

theorem overlapInv_pairWrite {st : DbState} {a b : Nat} {q : Rat}
    (hinv : OverlapInv st) (hab : a ≠ b) (h0 : 0 ≤ q) (h1 : q ≤ 1) :
    OverlapInv (setOverlap (setOverlap st a b q) b a q) := by
  obtain ⟨hsym, hrange, hirr⟩ := hinv
  refine ⟨?_, ?_, ?_⟩
  · intro x y q' h
    rw [lookup2_pairWrite st a b q hab] at h
    rw [lookup2_pairWrite st a b q hab]
    by_cases h1' : x = a ∧ y = b
    · rw [if_pos h1'] at h
      obtain ⟨rfl, rfl⟩ := h1'
      rw [if_neg (fun hh : y = x ∧ x = y => hab hh.2), if_pos ⟨rfl, rfl⟩]
      exact h
    · rw [if_neg h1'] at h
      by_cases h2' : x = b ∧ y = a
      · rw [if_pos h2'] at h
        obtain ⟨rfl, rfl⟩ := h2'
        rw [if_pos ⟨rfl, rfl⟩]
        exact h
      · rw [if_neg h2'] at h
        have hy1 : ¬ (y = a ∧ x = b) := fun hh => h2' ⟨hh.2, hh.1⟩
        have hy2 : ¬ (y = b ∧ x = a) := fun hh => h1' ⟨hh.2, hh.1⟩
        rw [if_neg hy2, if_neg hy1]
        exact hsym x y q' h
  · intro x y q' h
    rw [lookup2_pairWrite st a b q hab] at h
    by_cases h1' : x = a ∧ y = b
    · rw [if_pos h1'] at h
      obtain rfl := Option.some.inj h
      exact ⟨h0, h1⟩
    · rw [if_neg h1'] at h
      by_cases h2' : x = b ∧ y = a
      · rw [if_pos h2'] at h
        obtain rfl := Option.some.inj h
        exact ⟨h0, h1⟩
      · rw [if_neg h2'] at h
        exact hrange x y q' h
  · intro x
    rw [lookup2_pairWrite st a b q hab]
    rw [if_neg (fun hh : x = a ∧ x = b => hab (hh.1.symm.trans hh.2)),
      if_neg (fun hh : x = b ∧ x = a => hab (hh.2.symm.trans hh.1))]
    exact hirr x

theorem pairWrite_preserve {st : DbState} {a b : Nat} {q : Rat} (hab : a ≠ b)
    (hfa : lookup2 st a b = none) (hfb : lookup2 st b a = none) :
    ∀ x y q', lookup2 st x y = some q' →
      lookup2 (setOverlap (setOverlap st a b q) b a q) x y = some q' := by
  intro x y q' h
  rw [lookup2_pairWrite st a b q hab]
  by_cases h1' : x = a ∧ y = b
  · obtain ⟨rfl, rfl⟩ := h1'
    rw [hfa] at h
    exact Option.noConfusion h
  · by_cases h2' : x = b ∧ y = a
    · obtain ⟨rfl, rfl⟩ := h2'
      rw [hfb] at h
      exact Option.noConfusion h
    · rw [if_neg h1', if_neg h2']
      exact h

theorem overlapLoop_inv (ext : Externals) (nid : Nat) (nodes : List Node) :
    ∀ (others : List Nat) (st : DbState), OverlapInv st →
      OverlapInv (overlapLoop ext nid nodes st others).1 ∧
      (∀ x y q, lookup2 st x y = some q →
        lookup2 (overlapLoop ext nid nodes st others).1 x y = some q) := by
  intro others
  induction others with
  | nil =>
    intro st hinv
    exact ⟨hinv, fun _ _ _ h => h⟩
  | cons o rest ih =>
    intro st hinv
    unfold overlapLoop
    by_cases ho : o = nid
    · rw [if_pos ho]
      exact ih st hinv
    · rw [if_neg ho]
      by_cases hc : (lookup2 st nid o).isSome
      · rw [if_pos hc]
        exact ih st hinv
      · rw [if_neg hc]
        rcases hget : getNetworkById ext st o with err | p
        · exact ⟨hinv, fun _ _ _ h => h⟩
        · obtain ⟨st', other⟩ := p
          have hoc : st'.overlap_cache = st.overlap_cache := getNetworkById_overlap_cache hget
          have hinv' : OverlapInv st' := overlapInv_only_cache hoc hinv
          have hnone : lookup2 st nid o = none := by
            rcases hh : lookup2 st nid o with _ | w
            · rfl
            · exact absurd (by simp [hh]) hc
          have hfresh : lookup2 st' nid o = none := by
            rw [lookup2_only_cache hoc]
            exact hnone
          have hfresh' : lookup2 st' o nid = none := by
            rcases hq : lookup2 st' o nid with _ | w
            · rfl
            · have := hinv'.1 _ _ _ hq
              rw [hfresh] at this
              exact Option.noConfusion this
          have hab : nid ≠ o := fun hh => ho hh.symm
          have hinv'' : OverlapInv (setOverlap
              (setOverlap st' nid o (minTanimoto nodes other.nodes)) o nid
              (minTanimoto nodes other.nodes)) :=
            overlapInv_pairWrite hinv' hab (minTanimoto_nonneg _ _) (minTanimoto_le_one _ _)
          obtain ⟨ihInv, ihPres⟩ := ih _ hinv''
          refine ⟨ihInv, ?_⟩
          intro x y qq h
          refine ihPres x y qq (pairWrite_preserve hab hfresh hfresh' x y qq ?_)
          rw [lookup2_only_cache hoc]
          exact h

theorem getNodeOverlap_inv (ext : Externals) (st : DbState) (nid : Nat)
    (hinv : OverlapInv st) :
    OverlapInv (getNodeOverlap ext st nid).1 ∧
    (∀ x y q, lookup2 st x y = some q →
      lookup2 (getNodeOverlap ext st nid).1 x y = some q) := by
  have hinv1 : OverlapInv (ensureRow st nid) := overlapInv_ensureRow nid hinv
  have hpres1 : ∀ x y q, lookup2 st x y = some q →
      lookup2 (ensureRow st nid) x y = some q := by
    intro x y q h
    rw [lookup2_ensureRow]
    exact h
  unfold getNodeOverlap
  dsimp only
  split
  · exact ⟨hinv1, hpres1⟩
  · rcases hget : getNetworkById ext (ensureRow st nid) nid with err | p
    · exact ⟨hinv1, hpres1⟩
    · obtain ⟨st₂, network⟩ := p
      dsimp only
      have hoc : st₂.overlap_cache = (ensureRow st nid).overlap_cache :=
        getNetworkById_overlap_cache hget
      have hinv2 : OverlapInv st₂ := overlapInv_only_cache hoc hinv1
      obtain ⟨loopInv, loopPres⟩ := overlapLoop_inv ext nid network.nodes.dedup _ st₂ hinv2
      rcases hloop : overlapLoop ext nid network.nodes.dedup st₂
          ((listRecentNetworkIds ext).filter fun o =>
            (alLookup (lookupRow (ensureRow st nid) nid) o).isNone) with ⟨st₃, res⟩
      rw [hloop] at loopInv loopPres
      have hstep : ∀ x y q, lookup2 st x y = some q → lookup2 st₃ x y = some q := by
        intro x y q h
        refine loopPres x y q ?_
        rw [lookup2_only_cache hoc, lookup2_ensureRow]
        exact h
      cases res with
      | error err => exact ⟨loopInv, hstep⟩
      | ok u =>
        cases u
        exact ⟨loopInv, hstep⟩

theorem overlapInv_init : OverlapInv DbState.init :=
  ⟨fun _ _ _ h => Option.noConfusion h, fun _ _ _ h => Option.noConfusion h, fun _ => rfl⟩

theorem overlapCalls_inv (ext : Externals) (ids : List Nat) :
    ∀ st, OverlapInv st → OverlapInv (overlapCalls ext st ids) := by
  induction ids with
  | nil =>
    intro st h
    exact h
  | cons i rest ih =>
    intro st h
    simp only [overlapCalls, List.foldl_cons]
    exact ih _ (getNodeOverlap_inv ext st i h).1

/-- **C5.** The similarity cache stays symmetric by `overlap`: after
any sequence of `get_node_overlap` calls starting from the fresh
service, the cached score for `(a, b)` equals the one for `(b, a)`
(both directions are written by the same paired assignment), every
cached value lies in [0, 1], no network id appears in its own row, and
an already-cached pair is never recomputed — a single call preserves
every previously cached entry unchanged. -/
theorem claim_C5_similarity_cache_invariants (ext : Externals) (st : DbState)
    (networkId : Nat) (hinv : OverlapInv st) :
    OverlapInv (getNodeOverlap ext st networkId).1 ∧
    (∀ a b q, lookup2 st a b = some q →
      lookup2 (getNodeOverlap ext st networkId).1 a b = some q) ∧
    (∀ ids : List Nat, OverlapInv (overlapCalls ext DbState.init ids)) :=
  ⟨(getNodeOverlap_inv ext st networkId hinv).1,
   (getNodeOverlap_inv ext st networkId hinv).2,
   fun ids => overlapCalls_inv ext ids DbState.init overlapInv_init⟩

/-- Witness for C5: one `overlap` call on the fresh service keeps the
invariant. -/
theorem claim_C5_similarity_cache_invariants_witness :
    OverlapInv (getNodeOverlap extOk DbState.init 1).1 :=
  (claim_C5_similarity_cache_invariants extOk DbState.init 1 overlapInv_init).1

/-! ### Lemmas about index stability -/

/-- A fold whose step fixes the state leaves it unchanged. -/
theorem foldl_id {α σ : Type} (f : σ → α → σ) (s : σ) :
    ∀ l : List α, (∀ x ∈ l, f s x = s) → l.foldl f s = s := by
  intro l
  induction l with
  | nil => intro _; rfl
  | cons x xs ih =>
    intro h
    rw [List.foldl_cons, h x (List.mem_cons_self x xs), ih fun y hy => h y (List.mem_cons_of_mem _ hy)]

/-- The node loop changes nothing when every node of the graph is
already indexed (first-seen id wins). -/
theorem indexNodes_indexed {ext : Externals} {st : DbState} {g : Graph}
    (hN : ∀ n ∈ g.nodes, (alLookup st.node_nid n).isSome) :
    indexNodes ext st g = st := by
  unfold indexNodes
  refine foldl_id _ _ _ fun n hn => ?_
  dsimp only
  rw [if_pos (hN n hn)]

/-- The edge loop changes nothing when every edge of the graph is
already bound to its content id: the unconditional dictionary
assignments write back the values already stored. -/
theorem indexEdges_indexed {ext : Externals} {st : DbState} {g : Graph}
    (hE : ∀ e ∈ g.edges, alLookup st.edge_tuple_eid e = some (ext.identEdge e))
    (hE2 : ∀ e ∈ g.edges, alLookup st.eid_edge (ext.identEdge e) = some (e.u, e.v, e.data)) :
    indexEdges ext st g = st := by
  unfold indexEdges
  refine foldl_id _ _ _ fun e he => ?_
  dsimp only
  rw [alInsert_self (hE e he), alInsert_self (hE2 e he)]

/-- `update_indexes` is the identity on a state that already fully
indexes the graph. -/
theorem updateIndexes_indexed {ext : Externals} {st : DbState} {g : Graph}
    (hN : ∀ n ∈ g.nodes, (alLookup st.node_nid n).isSome)
    (hE : ∀ e ∈ g.edges, alLookup st.edge_tuple_eid e = some (ext.identEdge e))
    (hE2 : ∀ e ∈ g.edges, alLookup st.eid_edge (ext.identEdge e) = some (e.u, e.v, e.data)) :
    updateIndexes ext st g = st := by
  unfold updateIndexes
  rw [indexNodes_indexed hN, indexEdges_indexed hE hE2]

/-- `forget_network` leaves all four identifier index maps intact. -/
theorem forgetNetwork_index_maps (st : DbState) (networkId : Nat) :
    (forgetNetwork st networkId).node_nid = st.node_nid ∧
    (forgetNetwork st networkId).nid_node = st.nid_node ∧
    (forgetNetwork st networkId).edge_tuple_eid = st.edge_tuple_eid ∧
    (forgetNetwork st networkId).eid_edge = st.eid_edge := by
  unfold forgetNetwork forgetOverlap forgetDegrees forgetNetworks
  split <;> split <;> split <;> exact ⟨rfl, rfl, rfl, rfl⟩

/-- `_add_network` on a fully-indexed, unchanged graph: the store
reloads the raw graph, the enrichment chain reproduces the same graph,
and the resulting state re-caches the graph while leaving every
identifier binding exactly as it was. -/
theorem addNetwork_stable {ext : Externals} {st : DbState} {networkId : Nat}
    {raw g₁ g₂ g : Graph}
    (hnone : alLookup st.networks networkId = none)
    (hstore : storeRaw ext networkId = some raw)
    (hpa : ext.parseAuthors raw = .ok g₁)
    (hcd : ext.inferCentralDogma g₁ = .ok g₂)
    (hcn : ext.addCanonicalNames g₂ = .ok g)
    (hN : ∀ n ∈ g.nodes, (alLookup st.node_nid n).isSome)
    (hE : ∀ e ∈ g.edges, alLookup st.edge_tuple_eid e = some (ext.identEdge e))
    (hE2 : ∀ e ∈ g.edges, alLookup st.eid_edge (ext.identEdge e) = some (e.u, e.v, e.data)) :
    ∃ st', addNetwork ext st networkId = (st', .ok (some g)) ∧
      st'.node_nid = st.node_nid ∧ st'.nid_node = st.nid_node ∧
      st'.edge_tuple_eid = st.edge_tuple_eid ∧ st'.eid_edge = st.eid_edge ∧
      alLookup st'.networks networkId = some g := by
  have hred : addNetwork ext st networkId =
      ({ updateIndexes ext st g with
          node_degrees := alInsert (updateIndexes ext st g).node_degrees networkId g.degrees,
          universe_pmids := listUnion (updateIndexes ext st g).universe_pmids g.pubmedIdentifiers,
          universe_authors := listUnion (updateIndexes ext st g).universe_authors g.allAuthors,
          universeGraph := leftFullJoin (updateIndexes ext st g).universeGraph g,
          networks := alInsert (updateIndexes ext st g).networks networkId g }, .ok (some g)) := by
    simp [addNetwork, hnone, hstore, hpa, hcd, hcn]
  refine ⟨_, hred, ?_, ?_, ?_, ?_, ?_⟩ <;>
    simp [updateIndexes_indexed hN hE hE2, alLookup_alInsert]

/-- **C4.** `forget(id)` followed by `get(id)` reloads the graph from
the store and, for unchanged content, reassigns identical node and
edge identifiers: forget removes no id binding, the reload leaves every
binding of `node_nid`, `nid_node`, `edge_tuple_eid` and `eid_edge`
exactly as before (an already-indexed node is skipped by the node loop
and an already-indexed edge is rewritten with its unchanged content id,
so no new id is ever assigned), and the node→id / id→node maps still
form a bijection afterwards. -/
theorem claim_C4_reload_stability (ext : Externals) (st : DbState) (networkId : Nat)
    (raw g₁ g₂ g : Graph)
    (_hcached : alLookup st.networks networkId = some g)
    (hstore : storeRaw ext networkId = some raw)
    (hpa : ext.parseAuthors raw = .ok g₁)
    (hcd : ext.inferCentralDogma g₁ = .ok g₂)
    (hcn : ext.addCanonicalNames g₂ = .ok g)
    (hN : ∀ n ∈ g.nodes, (alLookup st.node_nid n).isSome)
    (hE : ∀ e ∈ g.edges, alLookup st.edge_tuple_eid e = some (ext.identEdge e))
    (hE2 : ∀ e ∈ g.edges, alLookup st.eid_edge (ext.identEdge e) = some (e.u, e.v, e.data))
    (hbij1 : ∀ p ∈ st.node_nid, alLookup st.nid_node p.2 = some p.1)
    (hbij2 : ∀ p ∈ st.nid_node, alLookup st.node_nid p.2 = some p.1) :
    ((forgetNetwork st networkId).node_nid = st.node_nid ∧
     (forgetNetwork st networkId).nid_node = st.nid_node ∧
     (forgetNetwork st networkId).edge_tuple_eid = st.edge_tuple_eid ∧
     (forgetNetwork st networkId).eid_edge = st.eid_edge) ∧
    ∃ st', getNetworkById ext (forgetNetwork st networkId) networkId = .ok (st', g) ∧
      st'.node_nid = st.node_nid ∧ st'.nid_node = st.nid_node ∧
      st'.edge_tuple_eid = st.edge_tuple_eid ∧ st'.eid_edge = st.eid_edge ∧
      (∀ p ∈ st'.node_nid, alLookup st'.nid_node p.2 = some p.1) ∧
      (∀ p ∈ st'.nid_node, alLookup st'.node_nid p.2 = some p.1) := by
  obtain ⟨hf1, hf2, hf3, hf4⟩ := forgetNetwork_index_maps st networkId
  refine ⟨⟨hf1, hf2, hf3, hf4⟩, ?_⟩
  have hnone : alLookup (forgetNetwork st networkId).networks networkId = none := by
    unfold forgetNetwork
    rw [(forgetOverlap_other _ _).1, (forgetDegrees_other _ _).1]
    exact forgetNetworks_networks st networkId
  obtain ⟨st', hadd, h1, h2, h3, h4, h5⟩ :=
    addNetwork_stable hnone hstore hpa hcd hcn
      (fun n hn => hf1 ▸ hN n hn) (fun e he => hf3 ▸ hE e he) (fun e he => hf4 ▸ hE2 e he)
  refine ⟨st', ?_, h1.trans hf1, h2.trans hf2, h3.trans hf3, h4.trans hf4, ?_, ?_⟩
  · unfold getNetworkById
    rw [if_pos (by rw [hnone]; rfl), hadd]
    simp [Except.map, Except.bind, h5]
  · intro p hp
    rw [h2.trans hf2]
    exact hbij1 p (by rw [h1.trans hf1] at hp; exact hp)
  · intro p hp
    rw [h1.trans hf1]
    exact hbij2 p (by rw [h2.trans hf2] at hp; exact hp)

/-- Witness for C4: the state that cached network 1 of the example
store forgets it without dropping any node id binding. -/
theorem claim_C4_reload_stability_witness :
    (forgetNetwork exState 1).node_nid = exState.node_nid :=
  (claim_C4_reload_stability extOk exState 1 exRawGraph exRawGraph exRawGraph exRawGraph
    (by decide) (by decide) rfl rfl rfl (by decide) (by decide) (by decide)
    (by decide) (by decide)).1.1

end PyBel
